import Mathlib

/-!
A shallow embedding of the scheme interpreter (`scheme/scheme.py`) and a
verification of its natural-language specification.

Expressions are modelled as `List Char`.  Python's in-place dictionary
mutation becomes explicit state passing: every evaluation step takes the
environment and returns the (possibly updated) environment next to its value.
Python exceptions become the `Except` monad.  Since the interpreter can
recurse unboundedly through user-defined functions (e.g. `(define (f x) (f x))`),
the mutually recursive evaluator carries a fuel parameter; running out of fuel
is reported as the distinguished error `Err.fuelExhausted`, which the real
program would surface as a host stack overflow.

Character classes of the Python regexes (`\d`, `\s`, `\w`) are modelled over
their ASCII fragment; the interpreter's input language is ASCII text.
-/

set_option maxHeartbeats 4000000

namespace Scheme

/-- The different `SyntaxError`s raised by scheme.py, identified by raise
site (the Python message text is presentation only and elided). -/
inductive SyntaxKind where
  /-- "Imbalanced parentheses" (end of `parse`). -/
  | imbalanced
  /-- "Expecting (" (in `strip`). -/
  | expectingOpen
  /-- "Expecting )" (in `strip`). -/
  | expectingClose
  /-- "Invalid primitive expression: ..." (in `evaluate_primitive`). -/
  | invalidPrimitive
  /-- "Name ... is not defined!" (in `lookup_variable`). -/
  | nameUndefined
  /-- "The 'define' keyword takes two args" (in `evaluate_words`). -/
  | defineArgs
  /-- "... is not a valid variable name" (in `evaluate_words`). -/
  | invalidName
deriving DecidableEq, Repr

/-- The `ValueError`s the interpreter can raise. -/
inductive ValueKind where
  /-- "Expected ... args, received ..." in `Lambda.evaluate`. -/
  | arity
  /-- Failure of the tuple unpacking `name, val = args` in `define`. -/
  | unpack
deriving DecidableEq, Repr

/-- Host-level errors of the Python program. -/
inductive Err where
  | syntaxError (k : SyntaxKind)
  | valueError (k : ValueKind)
  /-- TypeError from host arithmetic on non-numeric operands. -/
  | typeError
  /-- IndexError from indexing an empty string or list. -/
  | indexError
  /-- Artifact of the embedding: the fuel bound was reached (the Python
  program would recurse further, possibly forever). -/
  | fuelExhausted
deriving DecidableEq, Repr

/-- The four entries of `BUILTIN_OPS`. -/
inductive Op where
  | add
  | sub
  | mul
  | define
deriving DecidableEq, Repr

/-- Runtime values of the interpreter.  `emptyList` is the empty Python list:
`evaluate` is the only site that produces a list value (`return []` on an
empty result sequence) and no operation ever builds a non-empty one, so that
single value gets its own constructor.  Floats are kept as their literal text:
no claim performs float arithmetic, and binary floating point is outside the
scope of the embedding. -/
inductive Value where
  | int (n : Int)
  | float (lit : List Char)
  | str (s : List Char)
  | builtin (op : Op)
  /-- A `Lambda` object: parameter names and the unevaluated body text. -/
  | lam (params : List (List Char)) (body : List Char)
  /-- Python `None`, the value of the empty primitive expression. -/
  | pyNone
  | emptyList
deriving DecidableEq, Repr

/-- The environment: a Python dict as an association list in insertion
order with unique keys. -/
abbrev Env := List (Value × Value)

/-- `env[k] = v` on a Python dict: overwrite in place if the key is
present, else append at the end. -/
def envSet : Env → Value → Value → Env
  | [], k, v => [(k, v)]
  | (k0, v0) :: rest, k, v =>
    if k0 = k then (k, v) :: rest else (k0, v0) :: envSet rest k v

/-- `env[k]` lookup on a Python dict. -/
def envLookup : Env → Value → Option Value
  | [], _ => none
  | (k0, v0) :: rest, k => if k0 = k then some v0 else envLookup rest k

/-- `local_env.update(args_to_values)`: sequentially write each binding. -/
def envSetAll : Env → List (Value × Value) → Env
  | env, [] => env
  | env, (k, v) :: rest => envSetAll (envSet env k v) rest

/-- ASCII fragment of the regex class `\d`. -/
def isPyDigit (c : Char) : Bool := '0' ≤ c && c ≤ '9'

/-- ASCII fragment of the regex class `\s`. -/
def isPySpace (c : Char) : Bool :=
  c = ' ' || c = '\t' || c = '\n' || c = '\x0d' || c = '\x0b' || c = '\x0c'

/-- ASCII fragment of the regex class `\w`. -/
def isPyWordChar (c : Char) : Bool :=
  isPyDigit c || ('a' ≤ c && c ≤ 'z') || ('A' ≤ c && c ≤ 'Z') || c = '_'

/-- `re.match(r"[^.0-9]", s)`: does the first character lie outside `[.0-9]`? -/
def matchNonNumHead : List Char → Bool
  | [] => false
  | c :: _ => !(c = '.' || isPyDigit c)

/-- `re.match(r"^\s*\.\s*$", s)`.  The character classes of the pattern are
pairwise disjoint, so greedy scanning decides the match. -/
def matchDotOnly (cs : List Char) : Bool :=
  match cs.dropWhile isPySpace with
  | [] => false
  | c :: rest => c = '.' && (rest.dropWhile isPySpace).isEmpty

/-- `re.match(r"^\s*\d*(\.)?\d*\s*$", s)`, again by greedy scanning over
pairwise disjoint character classes. -/
def matchNumBody (cs : List Char) : Bool :=
  let cs1 := cs.dropWhile isPySpace
  let cs2 := cs1.dropWhile isPyDigit
  let cs3 := match cs2 with
    | [] => ([] : List Char)
    | c :: rest => if c = '.' then rest else c :: rest
  let cs4 := cs3.dropWhile isPyDigit
  (cs4.dropWhile isPySpace).isEmpty

/-- `is_numeric_literal` from scheme.py. -/
def is_numeric_literal (expression : List Char) : Bool :=
  if expression.length = 0 then false
  else if matchNonNumHead expression then false
  else if matchDotOnly expression then false
  else if matchNumBody expression then true
  else false

/-- `is_string_literal` from scheme.py. -/
def is_string_literal (expression : List Char) : Bool :=
  if expression.length < 2 then false
  else expression.head? = some '"' && expression.getLast? = some '"'

/-- `is_primitive` from scheme.py. -/
def is_primitive (expression : List Char) : Bool :=
  is_numeric_literal expression || is_string_literal expression ||
    expression.length = 0

/-- `int(s)` under the `is_numeric_literal` guard: the argument is digits
followed by optional whitespace (which Python's `int` ignores). -/
def pyIntOfDigits (cs : List Char) : Int :=
  ((cs.takeWhile isPyDigit).foldl (fun a c => a * 10 + (c.toNat - '0'.toNat)) 0 : Nat)

/-- `evaluate_numeric_literal` from scheme.py; the float branch keeps the
literal text. -/
def evaluate_numeric_literal (exp : List Char) : Value :=
  if exp.contains '.' then .float exp else .int (pyIntOfDigits exp)

/-- `evaluate_string_literal` from scheme.py: `exp[1:-1]`. -/
def evaluate_string_literal (exp : List Char) : List Char :=
  (exp.drop 1).dropLast

/-- `evaluate_primitive` from scheme.py. -/
def evaluate_primitive (expression : List Char) : Except Err Value :=
  if expression.length = 0 then .ok .pyNone
  else if is_numeric_literal expression then
    .ok (evaluate_numeric_literal expression)
  else if is_string_literal expression then
    .ok (.str (evaluate_string_literal expression))
  else .error (.syntaxError .invalidPrimitive)

/-- `lookup_variable` from scheme.py (the `KeyError` is converted to a
`SyntaxError` at the raise site). -/
def lookup_variable (exp : List Char) (env : Env) : Except Err Value :=
  match envLookup env (.str exp) with
  | some v => .ok v
  | none => .error (.syntaxError .nameUndefined)

/-- Membership in `BUILTIN_OPS` (`is_builtin`). -/
def is_builtin (exp : List Char) : Bool :=
  exp = "+".toList || exp = "-".toList || exp = "*".toList ||
    exp = "define".toList

/-- `get_builtin`: the registry maps each reserved symbol to its operation. -/
def get_builtin (exp : List Char) : Op :=
  if exp = "+".toList then .add
  else if exp = "-".toList then .sub
  else if exp = "*".toList then .mul
  else .define

/-- `is_valid_variable_name` from scheme.py: not a builtin and matching
`^\w*$`. -/
def is_valid_variable_name (name : List Char) : Bool :=
  if is_builtin name then false else name.all isPyWordChar

/-- `evaluate_simple` from scheme.py. -/
def evaluate_simple (exp : List Char) (env : Env) : Except Err Value :=
  if is_primitive exp then evaluate_primitive exp
  else if is_builtin exp then .ok (.builtin (get_builtin exp))
  else lookup_variable exp env

/-- `sweep_for(expression, seeking, +1)`: index of the first occurrence
(`str.index`), `none` for the `ValueError`. -/
def sweepForward : List Char → Char → Option Nat
  | [], _ => none
  | c :: rest, t => if c = t then some 0 else (sweepForward rest t).map (· + 1)

/-- `sweep_for(expression, seeking, -1)`:
`len(expression) - 1 - expression[::-1].index(seeking)`. -/
def sweepBackward (cs : List Char) (t : Char) : Option Nat :=
  (sweepForward cs.reverse t).map (fun k => cs.length - 1 - k)

/-- `strip` from scheme.py: the slice `expression[i_open+1:i_close]`. -/
def strip (expression : List Char) : Except Err (List Char) :=
  match sweepForward expression '(' with
  | none => .error (.syntaxError .expectingOpen)
  | some iOpen =>
    match sweepBackward expression ')' with
    | none => .error (.syntaxError .expectingClose)
    | some iClose => .ok ((expression.drop (iOpen + 1)).take (iClose - (iOpen + 1)))

/-- `skip_chars` from `parse`. -/
def skipChars : List Char := [' ', '\t', '\n']

/-- `delimiters` from `parse`: the skip characters plus both parens. -/
def delimiters : List Char := [' ', '\t', '\n', '(', ')']

/-- The scanning loop of `parse`, one step per character.  `d` is the value
of the Python `depth` variable at the top of the iteration (where it always
equals `next_depth`).  Returns the accumulated word list together with the
final depth. -/
def parseGo : List Char → Int → List Char → List (List Char) →
    List (List Char) × Int
  | [], d, _, words => (words, d)
  | t :: rest, d, word, words =>
    let depth : Int := if t = ')' then d - 1 else d
    let nextDepth : Int := if t = '(' then d + 1 else depth
    let word1 := if depth > 0 || !(skipChars.contains t) then word ++ [t] else word
    let nextTerminates : Bool :=
      match rest with
      | [] => true
      | u :: _ => delimiters.contains u
    if depth = 0 && (t = ')' || (!(delimiters.contains t) && nextTerminates)) then
      parseGo rest nextDepth [] (words ++ [word1])
    else
      parseGo rest nextDepth word1 words

/-- The word splitter `parse` from scheme.py. -/
def parse (expression : List Char) : Except Err (List (List Char)) :=
  if expression.length = 0 then .ok [expression]
  else
    let (words, d) := parseGo expression 0 [] []
    if d ≠ 0 then .error (.syntaxError .imbalanced) else .ok words

/-- `is_function_call` from scheme.py; `expression[0]` on the empty string
raises `IndexError`. -/
def is_function_call : List Char → Except Err Bool
  | [] => .error .indexError
  | c :: rest =>
    .ok (c = '(' && (c :: rest).getLast? = some ')')

/-- `is_function` from scheme.py (`hasattr(obj, "__call__")`): true exactly
for builtin operations and `Lambda` objects. -/
def is_function : Value → Bool
  | .builtin _ => true
  | .lam _ _ => true
  | _ => false

/-- The loop of Python's `sum` specialised to integer operands; any other
operand raises the host `TypeError` (float operands are outside the modelled
fragment). -/
def sumValues : Int → List Value → Except Err Int
  | acc, [] => .ok acc
  | acc, .int n :: rest => sumValues (acc + n) rest
  | _, _ => .error .typeError

/-- The loop of `mul` (`p = 1; for a in args: p *= a`), integer operands. -/
def prodValues : Int → List Value → Except Err Int
  | acc, [] => .ok acc
  | acc, .int n :: rest => prodValues (acc * n) rest
  | _, _ => .error .typeError

/-- `add` from scheme.py: `sum(args)`. -/
def add (args : List Value) (env : Env) : Except Err (Value × Env) := do
  let n ← sumValues 0 args
  .ok (.int n, env)

/-- `sub` from scheme.py: `args[0] - sum(args[1:])`. -/
def sub (args : List Value) (env : Env) : Except Err (Value × Env) :=
  match args with
  | [] => .error .indexError
  | a :: rest => do
    let s ← sumValues 0 rest
    match a with
    | .int n => .ok (.int (n - s), env)
    | _ => .error .typeError

/-- `mul` from scheme.py. -/
def mul (args : List Value) (env : Env) : Except Err (Value × Env) := do
  let n ← prodValues 1 args
  .ok (.int n, env)

/-- `define` from scheme.py: `name, val = args; env[name] = val; return val`. -/
def define (args : List Value) (env : Env) : Except Err (Value × Env) :=
  match args with
  | [name, val] => .ok (val, envSet env name val)
  | _ => .error (.valueError .unpack)

/-- Application of a `BUILTIN_OPS` entry to its argument list. -/
def applyOp : Op → List Value → Env → Except Err (Value × Env)
  | .add, args, env => add args env
  | .sub, args, env => sub args env
  | .mul, args, env => mul args env
  | .define, args, env => define args env

/-- The literal word `define`, for the special-form test in
`evaluate_words`. -/
def defineKeyword : List Char := "define".toList

mutual

/-- `evaluate` from scheme.py, fuelled.  The environment returned next to
the value is the caller's dict after the call's in-place mutations. -/
def evaluate : Nat → List Char → Env → Except Err (Value × Env)
  | 0, _, _ => .error .fuelExhausted
  | fuel + 1, expression, env => do
    let fc ← is_function_call expression
    if fc then do
      let inner ← strip expression
      let (innerWords, env1) ← evaluate_words fuel inner env
      combine fuel innerWords env1
    else do
      let (results, env1) ← evaluate_words fuel expression env
      match results.getLast? with
      | some v => .ok (v, env1)
      | none => .ok (.emptyList, env1)

/-- `evaluate_words` from scheme.py, fuelled. -/
def evaluate_words : Nat → List Char → Env → Except Err (List Value × Env)
  | 0, _, _ => .error .fuelExhausted
  | fuel + 1, expression, env => do
    let words ← parse expression
    match words with
    | [] => .ok ([], env)
    | [_] => do
      let v ← evaluate_simple expression env
      .ok ([v], env)
    | w0 :: w1 :: wrest =>
      if w0 = defineKeyword then
        match wrest with
        | [w2] => do
          let fcName ← is_function_call w1
          if fcName then do
            let strippedName ← strip w1
            let nameWords ← parse strippedName
            match nameWords with
            | [] => .error .indexError
            | fname :: fargs => do
              let (defOp, env1) ← evaluate fuel w0 env
              .ok ([defOp, .str fname, .lam fargs w2], env1)
          else
            if !(is_valid_variable_name w1) then
              .error (.syntaxError .invalidName)
            else do
              let (val, env1) ← evaluate fuel w2 env
              let (defOp, env2) ← evaluate fuel w0 env1
              .ok ([defOp, .str w1, val], env2)
        | _ => .error (.syntaxError .defineArgs)
      else
        evalList fuel (w0 :: w1 :: wrest) env

/-- The comprehension `[evaluate(subexp, env) for subexp in words]`; env
mutations of earlier words are visible to later ones. -/
def evalList : Nat → List (List Char) → Env → Except Err (List Value × Env)
  | 0, _, _ => .error .fuelExhausted
  | _ + 1, [], env => .ok ([], env)
  | fuel + 1, w :: ws, env => do
    let (v, env1) ← evaluate fuel w env
    let (vs, env2) ← evalList fuel ws env1
    .ok (v :: vs, env2)

/-- `combine` from scheme.py. -/
def combine : Nat → List Value → Env → Except Err (Value × Env)
  | 0, _, _ => .error .fuelExhausted
  | fuel + 1, results, env =>
    match results with
    | [r] => .ok (r, env)
    | [] => .error .indexError
    | op :: args =>
      match op with
      | .builtin b => applyOp b args env
      | .lam params body => lambdaEvaluate fuel params body args env
      | _ =>
        match args.getLast? with
        | some v => .ok (v, env)
        | none => .error .indexError

/-- `Lambda.evaluate` from scheme.py: arity check, then the body runs on a
copy of the caller environment extended with the parameter bindings, and the
caller's dict is handed back untouched. -/
def lambdaEvaluate : Nat → List (List Char) → List Char → List Value → Env →
    Except Err (Value × Env)
  | 0, _, _, _, _ => .error .fuelExhausted
  | fuel + 1, params, body, argValues, env =>
    if argValues.length ≠ params.length then .error (.valueError .arity)
    else do
      let localEnv := envSetAll env ((params.map Value.str).zip argValues)
      let (v, _) ← evaluate fuel body localEnv
      .ok (v, env)

end

/-- The net parenthesis count of a string: occurrences of the open paren
minus occurrences of the close paren.  This is the value the `depth`
counter of `parse` has after scanning the whole string. -/
def netCount : List Char → Int
  | [] => 0
  | c :: rest => (if c = '(' then 1 else if c = ')' then -1 else 0) + netCount rest

/-- A character allowed inside a numeric literal: a digit or the dot. -/
def isDigitDot (c : Char) : Bool := isPyDigit c || c = '.'

/-- The number of dots in a string. -/
def dotCount : List Char → Nat
  | [] => 0
  | c :: rest => (if c = '.' then 1 else 0) + dotCount rest

/-- The numeric-literal predicate exactly as claim C9 words it: `s` is
non-empty, every character of `s` is a digit or `.` with at most one `.`
occurring, and `s` is not the single character `.` alone. -/
def claimedNumeric (s : List Char) : Bool :=
  !s.isEmpty && s.all isDigitDot && dotCount s ≤ 1 && s ≠ ['.']

/-- The amended numeric-literal predicate: a non-empty core of digits
containing at most one `.`, followed by optional trailing whitespace, the
core not being the bare `.`. -/
def amendedNumeric (s : List Char) : Bool :=
  let core := s.takeWhile isDigitDot
  let rest := s.dropWhile isDigitDot
  !core.isEmpty && rest.all isPySpace && dotCount core ≤ 1 && core ≠ ['.']

/-! ### Small-step characterisations of the evaluator

Unfolding lemmas that expose one call layer of `evaluate` / `evaluate_words`
at a time, used to drive concrete and symbolic computations. -/

theorem except_bind_ok {α β : Type} (a : α) (k : α → Except Err β) :
    (Except.ok a : Except Err α) >>= k = k a := rfl

theorem except_bind_err {α β : Type} (er : Err) (k : α → Except Err β) :
    (Except.error er : Except Err α) >>= k = (.error er : Except Err β) := rfl

theorem evaluate_paren_ok (f : Nat) (e i : List Char) (env env1 : Env) (ws : List Value)
    (hfc : is_function_call e = .ok true) (hst : strip e = .ok i)
    (hew : evaluate_words f i env = .ok (ws, env1)) :
    evaluate (f + 1) e env = combine f ws env1 := by
  simp only [evaluate, hfc, hst, hew, except_bind_ok]
  exact if_pos trivial

theorem evaluate_paren_err (f : Nat) (e i : List Char) (env : Env) (er : Err)
    (hfc : is_function_call e = .ok true) (hst : strip e = .ok i)
    (hew : evaluate_words f i env = .error er) :
    evaluate (f + 1) e env = .error er := by
  simp only [evaluate, hfc, hst, hew, except_bind_ok, except_bind_err]
  exact if_pos trivial

theorem evaluate_flat_ok (f : Nat) (e : List Char) (env env1 : Env) (results : List Value)
    (hfc : is_function_call e = .ok false)
    (hew : evaluate_words f e env = .ok (results, env1)) :
    evaluate (f + 1) e env =
      match results.getLast? with
      | some v => .ok (v, env1)
      | none => .ok (.emptyList, env1) := by
  simp only [evaluate, hfc, hew, except_bind_ok]
  exact if_neg Bool.false_ne_true

theorem evaluate_flat_err (f : Nat) (e : List Char) (env : Env) (er : Err)
    (hfc : is_function_call e = .ok false)
    (hew : evaluate_words f e env = .error er) :
    evaluate (f + 1) e env = .error er := by
  simp only [evaluate, hfc, hew, except_bind_ok, except_bind_err]
  exact if_neg Bool.false_ne_true

theorem evaluate_words_parse_err (f : Nat) (e : List Char) (env : Env) (er : Err)
    (hp : parse e = .error er) :
    evaluate_words (f + 1) e env = .error er := by
  simp only [evaluate_words, hp, except_bind_err]

theorem evaluate_words_single (f : Nat) (e w : List Char) (env : Env)
    (hp : parse e = .ok [w]) :
    evaluate_words (f + 1) e env =
      (evaluate_simple e env) >>= fun v => .ok ([v], env) := by
  simp only [evaluate_words, hp, except_bind_ok]

theorem evaluate_words_list (f : Nat) (e w0 w1 : List Char) (wrest : List (List Char))
    (env : Env) (hp : parse e = .ok (w0 :: w1 :: wrest)) (hd : w0 ≠ defineKeyword) :
    evaluate_words (f + 1) e env = evalList f (w0 :: w1 :: wrest) env := by
  simp only [evaluate_words, hp, except_bind_ok, if_neg hd]

theorem evaluate_words_define_var (f : Nat) (e w1 w2 : List Char) (env env1 env2 : Env)
    (v d : Value)
    (hp : parse e = .ok [defineKeyword, w1, w2])
    (hfc : is_function_call w1 = .ok false)
    (hvalid : is_valid_variable_name w1 = true)
    (hval : evaluate f w2 env = .ok (v, env1))
    (hdef : evaluate f defineKeyword env1 = .ok (d, env2)) :
    evaluate_words (f + 1) e env = .ok ([d, .str w1, v], env2) := by
  simp only [evaluate_words, hp, except_bind_ok, hfc, hvalid, hval, hdef]
  rfl

theorem evaluate_words_define_invalid (f : Nat) (e w1 w2 : List Char) (env : Env)
    (hp : parse e = .ok [defineKeyword, w1, w2])
    (hfc : is_function_call w1 = .ok false)
    (hvalid : is_valid_variable_name w1 = false) :
    evaluate_words (f + 1) e env = .error (.syntaxError .invalidName) := by
  simp only [evaluate_words, hp, except_bind_ok, hfc, hvalid]
  rfl

theorem evaluate_words_define_fun (f : Nat) (e w1 w2 i : List Char)
    (fname : List Char) (fargs : List (List Char)) (env env1 : Env) (d : Value)
    (hp : parse e = .ok [defineKeyword, w1, w2])
    (hfc : is_function_call w1 = .ok true)
    (hst : strip w1 = .ok i)
    (hpn : parse i = .ok (fname :: fargs))
    (hdef : evaluate f defineKeyword env = .ok (d, env1)) :
    evaluate_words (f + 1) e env = .ok ([d, .str fname, .lam fargs w2], env1) := by
  simp only [evaluate_words, hp, except_bind_ok, hfc, hst, hpn, hdef]
  rfl

theorem evalList_nil (f : Nat) (env : Env) : evalList (f + 1) [] env = .ok ([], env) := rfl

theorem evalList_cons (f : Nat) (w : List Char) (ws : List (List Char))
    (env env1 env2 : Env) (v : Value) (vs : List Value)
    (h1 : evaluate f w env = .ok (v, env1))
    (h2 : evalList f ws env1 = .ok (vs, env2)) :
    evalList (f + 1) (w :: ws) env = .ok (v :: vs, env2) := by
  simp only [evalList, h1, h2, except_bind_ok]

/-! ### Environment lemmas -/

theorem envLookup_envSet_self (env : Env) (k v : Value) :
    envLookup (envSet env k v) k = some v := by
  induction env with
  | nil => simp [envSet, envLookup]
  | cons p rest ih =>
    by_cases h : p.1 = k
    · simp [envSet, envLookup, h]
    · simp [envSet, envLookup, h, ih]

theorem envSet_envSet_self (env : Env) (k v w : Value) :
    envSet (envSet env k v) k w = envSet env k w := by
  induction env with
  | nil => simp [envSet]
  | cons p rest ih =>
    by_cases h : p.1 = k
    · simp [envSet, h]
    · simp [envSet, h, ih]

theorem evaluate_simple_lookup (cs : List Char) (env : Env)
    (h1 : is_primitive cs = false) (h2 : is_builtin cs = false) :
    evaluate_simple cs env = lookup_variable cs env := by
  simp [evaluate_simple, h1, h2]

theorem lookup_variable_some (cs : List Char) (env : Env) (v : Value)
    (h : envLookup env (.str cs) = some v) :
    lookup_variable cs env = .ok v := by
  simp [lookup_variable, h]


/-! ### Parenthesis-balance lemmas (claim C1) -/

theorem netCount_append (xs ys : List Char) :
    netCount (xs ++ ys) = netCount xs + netCount ys := by
  induction xs with
  | nil => simp [netCount]
  | cons c rest ih => simp [netCount, ih]; ring

/-- The final value of the `depth` variable of `parse` is the incoming depth
plus the net parenthesis count of the scanned text. -/
theorem parseGo_depth (cs : List Char) : ∀ (d : Int) (word : List Char)
    (words : List (List Char)), (parseGo cs d word words).2 = d + netCount cs := by
  induction cs with
  | nil =>
    intro d w ws
    simp [parseGo, netCount]
  | cons t rest ih =>
    intro d w ws
    simp only [parseGo, apply_ite Prod.snd, ih, ite_self]
    by_cases h1 : t = '('
    · subst h1
      simp [netCount]
      try ring
    · by_cases h2 : t = ')'
      · subst h2
        simp [netCount]
        try ring
      · simp [netCount, h1, h2]
        try ring

/-- `parse` raises the imbalanced-parentheses `SyntaxError` on every input
with non-zero net parenthesis count. -/
theorem parse_imbalanced (e : List Char) (h : netCount e ≠ 0) :
    parse e = .error (.syntaxError .imbalanced) := by
  have he : e ≠ [] := by
    rintro rfl
    simp [netCount] at h
  have hlen : ¬(e.length = 0) := by simpa [List.length_eq_zero] using he
  rcases hp : parseGo e 0 [] [] with ⟨ws, d⟩
  have hd : d = netCount e := by
    have h0 := parseGo_depth e 0 [] []
    rw [hp] at h0
    simpa using h0
  simp only [parse, hp, if_neg hlen]
  rw [if_pos]
  rw [hd]
  exact h

theorem sweepForward_head (t : Char) (rest : List Char) :
    sweepForward (t :: rest) t = some 0 := by
  simp [sweepForward]

/-- On a string that starts with `(` and ends with `)`, `strip` removes
exactly the first and last characters. -/
theorem strip_paren (e : List Char) (hh : e.head? = some '(')
    (hl : e.getLast? = some ')') :
    strip e = .ok ((e.drop 1).dropLast) := by
  rcases e with _ | ⟨c, rest⟩
  · simp at hh
  have hc : c = '(' := by simpa using hh
  subst hc
  have hrev : ∃ tail, ('(' :: rest).reverse = ')' :: tail := by
    rcases hr : ('(' :: rest).reverse with _ | ⟨c2, tail⟩
    · exact absurd (congrArg List.length hr) (by simp)
    · have : ('(' :: rest).getLast? = some c2 := by
        rw [← List.head?_reverse]
        simp [hr]
      rw [hl] at this
      exact ⟨tail, by simp [hr, ← Option.some_inj.mp this]⟩
  rcases hrev with ⟨tail, hrev⟩
  have hsb : sweepBackward ('(' :: rest) ')' = some (('(' :: rest).length - 1) := by
    simp [sweepBackward, hrev, sweepForward_head]
  simp only [strip, sweepForward_head, hsb]
  congr 1
  have hlen : ('(' :: rest).length - 1 - (0 + 1) = rest.length - 1 := by
    simp
  rw [hlen]
  simp [List.dropLast_eq_take]

/-- Removing the outer parenthesis pair preserves the net count. -/
theorem netCount_inner (e : List Char) (hh : e.head? = some '(')
    (hl : e.getLast? = some ')') :
    netCount ((e.drop 1).dropLast) = netCount e := by
  rcases e with _ | ⟨c, rest⟩
  · simp at hh
  have hc : c = '(' := by simpa using hh
  subst hc
  have hne : rest ≠ [] := by
    rintro rfl
    simp at hl
  have hlast : rest.getLast? = some ')' := by
    rcases rest with _ | ⟨r, rs⟩
    · exact absurd rfl hne
    · rw [← hl]
      exact (List.getLast?_cons_cons).symm
  have hsplit : rest.dropLast ++ [')'] = rest :=
    List.dropLast_append_getLast? ')' hlast
  have h1 : netCount rest = netCount rest.dropLast + (-1) := by
    conv_lhs => rw [← hsplit]
    rw [netCount_append]
    simp [netCount]
  have h2 : netCount ('(' :: rest) = 1 + netCount rest := by
    simp [netCount]
  have h3 : (('(' :: rest).drop 1).dropLast = rest.dropLast := by simp
  rw [h3, h2, h1]
  ring

/-- `evaluate` propagates the imbalanced-parentheses failure for every input
with non-zero net count (any fuel of at least 2 suffices to reach `parse`). -/
theorem evaluate_imbalanced (f : Nat) (e : List Char) (env : Env)
    (h : netCount e ≠ 0) :
    evaluate (f + 2) e env = .error (.syntaxError .imbalanced) := by
  rcases e with _ | ⟨c, rest⟩
  · simp [netCount] at h
  by_cases hfc : c = '(' ∧ (c :: rest).getLast? = some ')'
  · obtain ⟨hc, hl⟩ := hfc
    subst hc
    have hh : ('(' :: rest).head? = some '(' := by simp
    have hfcT : is_function_call ('(' :: rest) = .ok true := by
      simp [is_function_call, hl]
    have hst := strip_paren ('(' :: rest) hh hl
    have hmid : netCount ((('(' :: rest).drop 1).dropLast) ≠ 0 := by
      rw [netCount_inner _ hh hl]
      exact h
    have hew := evaluate_words_parse_err f _ env _ (parse_imbalanced _ hmid)
    exact evaluate_paren_err (f + 1) _ _ env _ hfcT hst hew
  · have hfcF : is_function_call (c :: rest) = .ok false := by
      simp only [is_function_call, Except.ok.injEq]
      rw [Bool.and_eq_false_iff]
      rcases not_and_or.mp hfc with h1 | h2
      · exact Or.inl (by simpa using h1)
      · exact Or.inr (by simpa using h2)
    have hew := evaluate_words_parse_err f _ env _ (parse_imbalanced _ h)
    exact evaluate_flat_err (f + 1) _ env _ hfcF hew

/-! ### Claim theorems -/

/-- C1, counterexample: the input `)(`  is unbalanced in the claim's sense
(its first character, the prefix `)`, closes more parentheses than it opens:
net count -1), yet `parse` returns the empty word list without error and
`evaluate` returns the empty-list value, not a SyntaxError. -/
theorem C1_counterexample :
    ")(".toList = [')'] ++ ['('] ∧ netCount [')'] = -1 ∧
    parse ")(".toList = .ok [] ∧
    evaluate 3 ")(".toList [] = .ok (.emptyList, []) :=
  ⟨rfl, by decide, rfl, rfl⟩

/-- C1, amended: for every input string whose parenthesis depth at the end of
the scan is non-zero (total opens minus total closes), both the word splitter
`parse` and the entry point `evaluate` (given fuel at least 2) fail with the
imbalanced-parentheses SyntaxError; a prefix that closes more parentheses
than it opens does not by itself cause a failure. -/
theorem C1_theorem (e : List Char) (env : Env) (f : Nat) (h : netCount e ≠ 0) :
    parse e = .error (.syntaxError .imbalanced) ∧
    evaluate (f + 2) e env = .error (.syntaxError .imbalanced) :=
  ⟨parse_imbalanced e h, evaluate_imbalanced f e env h⟩

/-- C1, witness: the amended theorem applied to the concrete unbalanced
input `(`. -/
theorem C1_witness :
    parse "(".toList = .error (.syntaxError .imbalanced) ∧
    evaluate 2 "(".toList [] = .error (.syntaxError .imbalanced) :=
  C1_theorem "(".toList [] 0 (by decide)

/-- A `define` form whose word count is at least two but different from three
fails with the define-arity SyntaxError. -/
theorem evaluate_words_define_bad (f : Nat) (e w1 : List Char)
    (wrest : List (List Char)) (env : Env)
    (hp : parse e = .ok (defineKeyword :: w1 :: wrest))
    (hlen : wrest.length ≠ 1) :
    evaluate_words (f + 1) e env = .error (.syntaxError .defineArgs) := by
  cases wrest with
  | nil =>
    simp only [evaluate_words, hp, except_bind_ok]
    rfl
  | cons a tail =>
    cases tail with
    | nil => simp at hlen
    | cons b t2 =>
      simp only [evaluate_words, hp, except_bind_ok]
      rfl

/-- C2, counterexample: the function-pattern form of `define` performs no
name validation, so `(define (+ x) x)` binds the reserved builtin symbol `+`
as a variable name in the environment instead of raising SyntaxError. -/
theorem C2_counterexample :
    is_builtin "+".toList = true ∧
    evaluate 8 "(define (+ x) x)".toList [] =
      .ok (.lam ["x".toList] "x".toList,
           [(.str "+".toList, .lam ["x".toList] "x".toList)]) := by
  refine ⟨rfl, ?_⟩
  rw [show (8 : Nat) = 7 + 1 from rfl]
  rw [evaluate_paren_ok 7 "(define (+ x) x)".toList "define (+ x) x".toList [] []
        [.builtin .define, .str "+".toList, .lam ["x".toList] "x".toList] rfl rfl rfl]
  rfl

/-- C2, amended: a variable-form `define` (name slot not parenthesized)
whose name is one of the reserved builtin symbols `+`, `-`, `*`, `define`
fails with SyntaxError in every environment, before any mutation; the
function-pattern form, however, does not validate the name (see the
counterexample). -/
theorem C2_theorem (f : Nat) (env : Env) :
    evaluate (f + 2) "(define + 1)".toList env =
      .error (.syntaxError .invalidName) ∧
    evaluate (f + 2) "(define - 1)".toList env =
      .error (.syntaxError .invalidName) ∧
    evaluate (f + 2) "(define * 1)".toList env =
      .error (.syntaxError .invalidName) ∧
    evaluate (f + 2) "(define define 1)".toList env =
      .error (.syntaxError .invalidName) :=
  ⟨evaluate_paren_err (f + 1) "(define + 1)".toList "define + 1".toList env _ rfl rfl
     (evaluate_words_define_invalid f "define + 1".toList "+".toList "1".toList env
        rfl rfl rfl),
   evaluate_paren_err (f + 1) "(define - 1)".toList "define - 1".toList env _ rfl rfl
     (evaluate_words_define_invalid f "define - 1".toList "-".toList "1".toList env
        rfl rfl rfl),
   evaluate_paren_err (f + 1) "(define * 1)".toList "define * 1".toList env _ rfl rfl
     (evaluate_words_define_invalid f "define * 1".toList "*".toList "1".toList env
        rfl rfl rfl),
   evaluate_paren_err (f + 1) "(define define 1)".toList "define define 1".toList env _
     rfl rfl
     (evaluate_words_define_invalid f "define define 1".toList "define".toList
        "1".toList env rfl rfl rfl)⟩

/-- C6, counterexample: `(define)`, a `define` form with zero operands, does
not fail: the single word `define` inside the parentheses evaluates to the
define builtin itself, which `combine` returns as the value. -/
theorem C6_counterexample :
    evaluate 2 "(define)".toList [] = .ok (.builtin .define, []) := rfl

/-- C6, amended: a `define` form with at least one operand but a number of
operands other than exactly two fails with the define-arity SyntaxError (in
any environment, e.g. `(define a)` and `(define a 1 2)`); the zero-operand
form `(define)` instead evaluates to the define builtin without error. -/
theorem C6_theorem :
    (∀ (f : Nat) (e w1 : List Char) (wrest : List (List Char)) (env : Env),
      parse e = .ok (defineKeyword :: w1 :: wrest) → wrest.length ≠ 1 →
      evaluate_words (f + 1) e env = .error (.syntaxError .defineArgs)) ∧
    (∀ (f : Nat) (env : Env),
      evaluate (f + 2) "(define a)".toList env =
        .error (.syntaxError .defineArgs)) ∧
    (∀ (f : Nat) (env : Env),
      evaluate (f + 2) "(define a 1 2)".toList env =
        .error (.syntaxError .defineArgs)) ∧
    (∀ (f : Nat) (env : Env),
      evaluate (f + 2) "(define)".toList env = .ok (.builtin .define, env)) :=
  ⟨fun f e w1 wrest env hp hlen => evaluate_words_define_bad f e w1 wrest env hp hlen,
   fun f env =>
     evaluate_paren_err (f + 1) "(define a)".toList "define a".toList env _ rfl rfl
       (evaluate_words_define_bad f "define a".toList "a".toList [] env rfl
          (by decide)),
   fun f env =>
     evaluate_paren_err (f + 1) "(define a 1 2)".toList "define a 1 2".toList env _
       rfl rfl
       (evaluate_words_define_bad f "define a 1 2".toList "a".toList
          ["1".toList, "2".toList] env rfl (by decide)),
   fun f env => by
     have hew : evaluate_words (f + 1) "define".toList env =
         .ok ([.builtin .define], env) := by
       rw [evaluate_words_single f "define".toList "define".toList env rfl]
       rfl
     rw [evaluate_paren_ok (f + 1) "(define)".toList "define".toList env env
           [.builtin .define] rfl rfl hew]
     rfl⟩

/-- C6, witness: the general part of the amended theorem applied to the
concrete one-operand input `define x`. -/
theorem C6_witness :
    evaluate_words 1 "define x".toList [] = .error (.syntaxError .defineArgs) :=
  C6_theorem.1 0 "define x".toList "x".toList [] [] rfl (by decide)

/-- C8: contrary to the claim, `evaluate` is not total on the empty
expression: `is_function_call` reads `expression[0]` unguarded, so
`evaluate("", env)` raises IndexError in every environment, even though the
rest of the pipeline supports the empty expression (`evaluate_simple` returns
the Python `None`, as the unit tests record). -/
theorem C8_theorem (f : Nat) (env : Env) :
    evaluate (f + 1) [] env = .error .indexError ∧
    evaluate_simple [] env = .ok .pyNone :=
  ⟨rfl, rfl⟩

/-- C10: a top-level `define` not enclosed in parentheses returns the value
operand but performs no binding: `combine` never runs, so the environment is
returned unchanged for every starting environment. -/
theorem C10_theorem (f : Nat) (env : Env) :
    evaluate (f + 4) "define a 2".toList env = .ok (.int 2, env) := by
  have hew : evaluate_words (f + 3) "define a 2".toList env =
      .ok ([.builtin .define, .str "a".toList, .int 2], env) :=
    evaluate_words_define_var (f + 2) "define a 2".toList "a".toList "2".toList
      env env env (.int 2) (.builtin .define) rfl rfl rfl rfl rfl
  rw [evaluate_flat_ok (f + 3) "define a 2".toList env env
        [.builtin .define, .str "a".toList, .int 2] rfl hew]
  rfl

/-- Evaluating the single-word expression `a` returns the value bound to
`a` and leaves the environment untouched. -/
theorem evaluate_var_a (f : Nat) (env : Env) (v : Value)
    (h : envLookup env (.str "a".toList) = some v) :
    evaluate (f + 2) "a".toList env = .ok (v, env) := by
  have hsimple : evaluate_simple "a".toList env = .ok v := by
    rw [evaluate_simple_lookup "a".toList env rfl rfl, lookup_variable_some _ _ v h]
  have hew : evaluate_words (f + 1) "a".toList env = .ok ([v], env) := by
    rw [evaluate_words_single f "a".toList "a".toList env rfl, hsimple, except_bind_ok]
  rw [evaluate_flat_ok (f + 1) "a".toList env env [v] rfl hew]
  rfl

/-- C3: in every environment, `(define a 7)` evaluates to 7 and binds `a`
to 7; afterwards the expression `a` evaluates to 7; and redefining `a` by
`(define a 9)` succeeds, returning 9 and overwriting the binding. -/
theorem C3_theorem (f : Nat) (env : Env) :
    evaluate (f + 4) "(define a 7)".toList env =
      .ok (.int 7, envSet env (.str "a".toList) (.int 7)) ∧
    evaluate (f + 2) "a".toList (envSet env (.str "a".toList) (.int 7)) =
      .ok (.int 7, envSet env (.str "a".toList) (.int 7)) ∧
    evaluate (f + 4) "(define a 9)".toList (envSet env (.str "a".toList) (.int 7)) =
      .ok (.int 9, envSet env (.str "a".toList) (.int 9)) := by
  refine ⟨?_, evaluate_var_a f _ (.int 7) (envLookup_envSet_self env _ _), ?_⟩
  · have hew : evaluate_words (f + 3) "define a 7".toList env =
        .ok ([.builtin .define, .str "a".toList, .int 7], env) :=
      evaluate_words_define_var (f + 2) "define a 7".toList "a".toList "7".toList
        env env env (.int 7) (.builtin .define) rfl rfl rfl rfl rfl
    rw [evaluate_paren_ok (f + 3) "(define a 7)".toList "define a 7".toList env env
          [.builtin .define, .str "a".toList, .int 7] rfl rfl hew]
    rfl
  · have hew : evaluate_words (f + 3) "define a 9".toList
        (envSet env (.str "a".toList) (.int 7)) =
        .ok ([.builtin .define, .str "a".toList, .int 9],
             envSet env (.str "a".toList) (.int 7)) :=
      evaluate_words_define_var (f + 2) "define a 9".toList "a".toList "9".toList
        (envSet env (.str "a".toList) (.int 7)) (envSet env (.str "a".toList) (.int 7))
        (envSet env (.str "a".toList) (.int 7)) (.int 9) (.builtin .define)
        rfl rfl rfl rfl rfl
    rw [evaluate_paren_ok (f + 3) "(define a 9)".toList "define a 9".toList
          (envSet env (.str "a".toList) (.int 7)) (envSet env (.str "a".toList) (.int 7))
          [.builtin .define, .str "a".toList, .int 9] rfl rfl hew]
    have hc : combine (f + 3) [.builtin .define, .str "a".toList, .int 9]
          (envSet env (.str "a".toList) (.int 7)) =
        .ok (.int 9,
          envSet (envSet env (.str "a".toList) (.int 7)) (.str "a".toList) (.int 9)) := rfl
    rw [hc, envSet_envSet_self]

theorem sumValues_ints (ns : List Int) : ∀ (acc : Int),
    sumValues acc (ns.map Value.int) = .ok (acc + ns.sum) := by
  induction ns with
  | nil => intro acc; simp [sumValues]
  | cons n rest ih =>
    intro acc
    simp only [List.map_cons, sumValues, List.sum_cons]
    rw [ih (acc + n)]
    congr 1
    ring

theorem prodValues_ints (ns : List Int) : ∀ (acc : Int),
    prodValues acc (ns.map Value.int) = .ok (acc * ns.prod) := by
  induction ns with
  | nil => intro acc; simp [prodValues]
  | cons n rest ih =>
    intro acc
    simp only [List.map_cons, prodValues, List.prod_cons]
    rw [ih (acc * n)]
    congr 1
    ring

/-- C4: defining `(define (double x) (* x 2))` stores a closure with
parameter `x` and unevaluated body `(* x 2)`; applying `double` to 5 runs the
body with the parameter bound and yields 10; applying it to two arguments
fails with the arity ValueError, and in general every closure invocation
whose argument count differs from the declared parameter count fails with
that error. -/
theorem C4_theorem :
    evaluate 16 "(define (double x) (* x 2))".toList [] =
      .ok (.lam ["x".toList] "(* x 2)".toList,
           [(.str "double".toList, .lam ["x".toList] "(* x 2)".toList)]) ∧
    evaluate 16 "(double 5)".toList
        [(.str "double".toList, .lam ["x".toList] "(* x 2)".toList)] =
      .ok (.int 10,
           [(.str "double".toList, .lam ["x".toList] "(* x 2)".toList)]) ∧
    evaluate 16 "(double 5 6)".toList
        [(.str "double".toList, .lam ["x".toList] "(* x 2)".toList)] =
      .error (.valueError .arity) ∧
    (∀ (f : Nat) (params : List (List Char)) (body : List Char)
        (args : List Value) (env : Env), args.length ≠ params.length →
      lambdaEvaluate (f + 1) params body args env = .error (.valueError .arity)) := by
  refine ⟨?_, ?_, ?_, ?_⟩
  · rw [show (16 : Nat) = 15 + 1 from rfl]
    rw [evaluate_paren_ok 15 "(define (double x) (* x 2))".toList
          "define (double x) (* x 2)".toList [] []
          [.builtin .define, .str "double".toList, .lam ["x".toList] "(* x 2)".toList]
          rfl rfl rfl]
    rfl
  · rw [show (16 : Nat) = 15 + 1 from rfl]
    rw [evaluate_paren_ok 15 "(double 5)".toList "double 5".toList
          [(.str "double".toList, .lam ["x".toList] "(* x 2)".toList)]
          [(.str "double".toList, .lam ["x".toList] "(* x 2)".toList)]
          [.lam ["x".toList] "(* x 2)".toList, .int 5] rfl rfl rfl]
    rfl
  · rw [show (16 : Nat) = 15 + 1 from rfl]
    rw [evaluate_paren_ok 15 "(double 5 6)".toList "double 5 6".toList
          [(.str "double".toList, .lam ["x".toList] "(* x 2)".toList)]
          [(.str "double".toList, .lam ["x".toList] "(* x 2)".toList)]
          [.lam ["x".toList] "(* x 2)".toList, .int 5, .int 6] rfl rfl rfl]
    rfl
  · intro f params body args env h
    simp only [lambdaEvaluate]
    rw [if_pos h]

/-- C4, witness: the universal arity part applied to a closure with no
parameters and one supplied argument. -/
theorem C4_witness :
    lambdaEvaluate 1 [] "x".toList [.int 1] [] = .error (.valueError .arity) :=
  C4_theorem.2.2.2 0 [] "x".toList [.int 1] [] (by decide)

/-- C5: the arithmetic builtins: `(+ 2 3)` evaluates to 5, `(- 1 4)` to -3
and `(* 2 3 4)` to 24 in the empty environment; in general, over integer
arguments, `add` returns the sum of all arguments, `sub` returns the first
argument minus the sum of the rest, and `mul` returns the product of all
arguments, never touching the environment. -/
theorem C5_theorem :
    evaluate 8 "(+ 2 3)".toList [] = .ok (.int 5, []) ∧
    evaluate 8 "(- 1 4)".toList [] = .ok (.int (-3), []) ∧
    evaluate 8 "(* 2 3 4)".toList [] = .ok (.int 24, []) ∧
    (∀ (ns : List Int) (env : Env),
      add (ns.map Value.int) env = .ok (.int ns.sum, env)) ∧
    (∀ (n : Int) (ns : List Int) (env : Env),
      sub (.int n :: ns.map Value.int) env = .ok (.int (n - ns.sum), env)) ∧
    (∀ (ns : List Int) (env : Env),
      mul (ns.map Value.int) env = .ok (.int ns.prod, env)) := by
  refine ⟨rfl, rfl, rfl, ?_, ?_, ?_⟩
  · intro ns env
    simp only [add, sumValues_ints ns 0, except_bind_ok, zero_add]
  · intro n ns env
    simp only [sub, sumValues_ints ns 0, except_bind_ok, zero_add]
  · intro ns env
    simp only [mul, prodValues_ints ns 1, except_bind_ok, one_mul]

/-- C7: a closure invocation never changes the caller's environment: whenever
`Lambda.evaluate` succeeds, the environment it hands back is exactly the one
it was called with; parameter bindings and `define`s in the body touch only
the copied local environment. -/
theorem C7_theorem (fuel : Nat) (params : List (List Char)) (body : List Char)
    (args : List Value) (env : Env) (out : Value × Env)
    (h : lambdaEvaluate fuel params body args env = .ok out) :
    out.2 = env := by
  cases fuel with
  | zero => simp [lambdaEvaluate] at h
  | succ f =>
    simp only [lambdaEvaluate] at h
    by_cases harity : args.length ≠ params.length
    · rw [if_pos harity] at h
      simp at h
    · rw [if_neg harity] at h
      rcases hev : evaluate f body (envSetAll env ((params.map Value.str).zip args))
        with er | p
      · rw [hev] at h
        simp [except_bind_err] at h
      · rw [hev] at h
        rw [except_bind_ok] at h
        rcases p with ⟨v, env2⟩
        simp only [Except.ok.injEq] at h
        rw [← h]

/-- C7, witness: the theorem applied to a concrete invocation: the identity
body `x` applied to 1 in the empty environment hands back the empty
environment. -/
theorem C7_witness : ((Value.int 1, ([] : Env)) : Value × Env).2 = ([] : Env) :=
  C7_theorem 3 ["x".toList] "x".toList [.int 1] [] (Value.int 1, ([] : Env)) rfl

/-! ### Character-class and scanning lemmas (claim C9) -/

theorem isPyDigit_not_dot {c : Char} (h : isPyDigit c = true) : c ≠ '.' := by
  rintro rfl
  simp [isPyDigit] at h

theorem isPySpace_not_digitDot {c : Char} (h : isPySpace c = true) :
    isDigitDot c = false := by
  have h2 : c = ' ' ∨ c = '\t' ∨ c = '\n' ∨ c = '\x0d' ∨ c = '\x0b' ∨ c = '\x0c' := by
    simpa [isPySpace, or_assoc] using h
  rcases h2 with rfl | rfl | rfl | rfl | rfl | rfl <;> decide

theorem digitDot_not_space {c : Char} (h : isDigitDot c = true) :
    isPySpace c = false := by
  rcases hs : isPySpace c with _ | _
  · rfl
  · rw [isPySpace_not_digitDot hs] at h
    cases h

theorem all_mono {q q' : Char → Bool} (h : ∀ c, q c = true → q' c = true)
    (l : List Char) (hl : l.all q = true) : l.all q' = true := by
  induction l with
  | nil => rfl
  | cons c t ih =>
    simp only [List.all_cons, Bool.and_eq_true] at hl ⊢
    exact ⟨h c hl.1, ih hl.2⟩

theorem takeWhile_all_append (q : Char → Bool) (xs ys : List Char)
    (h : xs.all q = true) :
    (xs ++ ys).takeWhile q = xs ++ ys.takeWhile q := by
  induction xs with
  | nil => simp
  | cons c t ih =>
    simp only [List.all_cons, Bool.and_eq_true] at h
    simp [List.takeWhile_cons, h.1, ih h.2]

theorem dropWhile_all_append (q : Char → Bool) (xs ys : List Char)
    (h : xs.all q = true) :
    (xs ++ ys).dropWhile q = ys.dropWhile q := by
  induction xs with
  | nil => simp
  | cons c t ih =>
    simp only [List.all_cons, Bool.and_eq_true] at h
    simp [List.dropWhile_cons, h.1, ih h.2]

theorem dropWhile_isEmpty_eq_all (q : Char → Bool) (l : List Char) :
    (l.dropWhile q).isEmpty = l.all q := by
  induction l with
  | nil => rfl
  | cons c t ih =>
    rcases hq : q c with _ | _
    · simp [List.dropWhile_cons, hq]
    · simp [List.dropWhile_cons, hq, ih]

theorem dropWhile_head_false (q : Char → Bool) (l : List Char) (x : Char)
    (xs : List Char) (h : l.dropWhile q = x :: xs) : q x = false := by
  induction l with
  | nil => cases h
  | cons c t ih =>
    rcases hq : q c with _ | _
    · rw [List.dropWhile_cons, hq] at h
      simp only [Bool.false_eq_true, if_false] at h
      cases h
      exact hq
    · rw [List.dropWhile_cons, hq] at h
      simp only [if_true] at h
      exact ih h

theorem dotCount_append (xs ys : List Char) :
    dotCount (xs ++ ys) = dotCount xs + dotCount ys := by
  induction xs with
  | nil => simp [dotCount]
  | cons c t ih => simp [dotCount, ih]; ring

theorem dotCount_digits (xs : List Char) (h : xs.all isPyDigit = true) :
    dotCount xs = 0 := by
  induction xs with
  | nil => rfl
  | cons c t ih =>
    simp only [List.all_cons, Bool.and_eq_true] at h
    simp [dotCount, ih h.2, if_neg (isPyDigit_not_dot h.1)]

theorem all_takeWhile_self (q : Char → Bool) (l : List Char) :
    (l.takeWhile q).all q = true := by
  induction l with
  | nil => rfl
  | cons c t ih =>
    rcases hq : q c with _ | _
    · simp [List.takeWhile_cons, hq]
    · simp [List.takeWhile_cons, hq, ih]

theorem digit_isDigitDot {c : Char} (h : isPyDigit c = true) :
    isDigitDot c = true := by
  simp [isDigitDot, h]

theorem all_space_takeWhile_digitDot (t : List Char) (h : t.all isPySpace = true) :
    t.takeWhile isDigitDot = [] := by
  cases t with
  | nil => rfl
  | cons u t2 =>
    simp only [List.all_cons, Bool.and_eq_true] at h
    simp [List.takeWhile_cons, isPySpace_not_digitDot h.1]

/-- Claim C9, digit-head case of the regex-vs-amended-spec equivalence. -/
theorem numericEquiv_digit (c : Char) (t : List Char) (hc : isPyDigit c = true) :
    is_numeric_literal (c :: t) = amendedNumeric (c :: t) := by
  have hp : isDigitDot c = true := digit_isDigitDot hc
  have hsp : isPySpace c = false := digitDot_not_space hp
  have hcd : ¬(c = '.') := isPyDigit_not_dot hc
  have h1 : matchNonNumHead (c :: t) = false := by
    simp [matchNonNumHead, hc]
  have h2 : matchDotOnly (c :: t) = false := by
    simp [matchDotOnly, List.dropWhile_cons, hsp, hcd]
  have htA : t.takeWhile isPyDigit ++ t.dropWhile isPyDigit = t :=
    List.takeWhile_append_dropWhile isPyDigit t
  have hAall : (t.takeWhile isPyDigit).all isPyDigit := all_takeWhile_self _ t
  have hAp : (t.takeWhile isPyDigit).all isDigitDot :=
    all_mono (fun _ h => digit_isDigitDot h) _ hAall
  have hA0 : dotCount (t.takeWhile isPyDigit) = 0 := dotCount_digits _ hAall
  have hLHS : is_numeric_literal (c :: t) = matchNumBody (c :: t) := by
    simp [is_numeric_literal, h1, h2]
  have hcore : (c :: t).takeWhile isDigitDot =
      c :: (t.takeWhile isPyDigit ++ (t.dropWhile isPyDigit).takeWhile isDigitDot) := by
    conv_lhs => rw [List.takeWhile_cons, if_pos hp, ← htA]
    rw [takeWhile_all_append _ _ _ hAp]
  have hrest : (c :: t).dropWhile isDigitDot =
      (t.dropWhile isPyDigit).dropWhile isDigitDot := by
    conv_lhs => rw [List.dropWhile_cons, if_pos hp, ← htA]
    rw [dropWhile_all_append _ _ _ hAp]
  have hcs2 : ((c :: t).dropWhile isPySpace).dropWhile isPyDigit =
      t.dropWhile isPyDigit := by
    simp [List.dropWhile_cons, hsp, hc]
  rw [hLHS]
  simp only [matchNumBody, hcs2]
  rcases hr1 : t.dropWhile isPyDigit with _ | ⟨x, r2⟩
  · rw [hr1] at hcore hrest
    simp only [amendedNumeric, hcore, hrest]
    simp [dotCount, dotCount_append, hA0, hcd]
  · have hx : isPyDigit x = false := dropWhile_head_false _ t x r2 hr1
    rw [hr1] at hcore hrest
    by_cases hxd : x = '.'
    · subst hxd
      have hdotp : isDigitDot '.' = true := by decide
      have hBall : (r2.takeWhile isPyDigit).all isPyDigit := all_takeWhile_self _ r2
      have hBp : (r2.takeWhile isPyDigit).all isDigitDot :=
        all_mono (fun _ h => digit_isDigitDot h) _ hBall
      have hB0 : dotCount (r2.takeWhile isPyDigit) = 0 := dotCount_digits _ hBall
      have htB : r2.takeWhile isPyDigit ++ r2.dropWhile isPyDigit = r2 :=
        List.takeWhile_append_dropWhile isPyDigit r2
      have hcore2 : ('.' :: r2).takeWhile isDigitDot =
          '.' :: (r2.takeWhile isPyDigit ++
            (r2.dropWhile isPyDigit).takeWhile isDigitDot) := by
        conv_lhs => rw [List.takeWhile_cons, if_pos hdotp, ← htB]
        rw [takeWhile_all_append _ _ _ hBp]
      have hrest2 : ('.' :: r2).dropWhile isDigitDot =
          (r2.dropWhile isPyDigit).dropWhile isDigitDot := by
        conv_lhs => rw [List.dropWhile_cons, if_pos hdotp, ← htB]
        rw [dropWhile_all_append _ _ _ hBp]
      rw [hcore2] at hcore
      rw [hrest2] at hrest
      simp only [reduceIte]
      rcases hr3 : r2.dropWhile isPyDigit with _ | ⟨y, r4⟩
      · rw [hr3] at hcore hrest
        simp only [amendedNumeric, hcore, hrest]
        simp [dotCount, dotCount_append, hA0, hB0, hcd, hdotp]
      · have hy : isPyDigit y = false := dropWhile_head_false _ r2 y r4 hr3
        rw [hr3] at hcore hrest
        by_cases hyd : y = '.'
        · subst hyd
          have hty : ('.' :: r4).takeWhile isDigitDot =
              '.' :: r4.takeWhile isDigitDot := by
            simp [List.takeWhile_cons, hdotp]
          rw [hty] at hcore
          simp only [amendedNumeric, hcore, hrest]
          have hdotsp : isPySpace '.' = false := by decide
          have hLfalse : ((('.' :: r4) : List Char).dropWhile isPySpace).isEmpty
              = false := by
            simp [List.dropWhile_cons, hdotsp]
          rw [hLfalse]
          have hcount : ¬(dotCount (c :: (t.takeWhile isPyDigit ++
              '.' :: (r2.takeWhile isPyDigit ++ '.' :: r4.takeWhile isDigitDot))) ≤ 1) := by
            simp [dotCount, dotCount_append, hA0, hB0, hcd]
          simp [hcount]
        · have hyp : isDigitDot y = false := by
            simp [isDigitDot, hy, hyd]
          have hty : (y :: r4).takeWhile isDigitDot = [] := by
            simp [List.takeWhile_cons, hyp]
          rw [hty] at hcore
          have hdy : (y :: r4).dropWhile isDigitDot = y :: r4 := by
            simp [List.dropWhile_cons, hyp]
          rw [hdy] at hrest
          simp only [amendedNumeric, hcore, hrest]
          rw [dropWhile_isEmpty_eq_all]
          have hcount : dotCount (c :: (t.takeWhile isPyDigit ++
              '.' :: (r2.takeWhile isPyDigit ++ []))) = 1 := by
            simp [dotCount, dotCount_append, hA0, hB0, hcd]
          rw [hcount]
          have hne : (c :: (t.takeWhile isPyDigit ++
              '.' :: (r2.takeWhile isPyDigit ++ []))) ≠ ['.'] := by
            intro hbad
            apply hcd
            have hh := congrArg List.head? hbad
            simpa using hh
          simp [hne]
    · have hxp : isDigitDot x = false := by
        simp [isDigitDot, hx, hxd]
      have h3 : (x :: r2).takeWhile isDigitDot = [] := by
        simp [List.takeWhile_cons, hxp]
      have h4 : (x :: r2).dropWhile isDigitDot = x :: r2 := by
        simp [List.dropWhile_cons, hxp]
      rw [h3] at hcore
      rw [h4] at hrest
      simp only [if_neg hxd]
      simp only [amendedNumeric, hcore, hrest]
      have hdrop : ((x :: r2) : List Char).dropWhile isPyDigit = x :: r2 := by
        simp [List.dropWhile_cons, hx]
      rw [hdrop, dropWhile_isEmpty_eq_all]
      have hcount : dotCount (c :: (t.takeWhile isPyDigit ++ [])) = 0 := by
        simp [dotCount, dotCount_append, hA0, hcd]
      rw [hcount]
      have hne : (c :: (t.takeWhile isPyDigit ++ [])) ≠ ['.'] := by
        intro hbad
        apply hcd
        have hh := congrArg List.head? hbad
        simpa using hh
      rw [decide_eq_true hne]
      simp

/-- Claim C9, dot-head case of the regex-vs-amended-spec equivalence. -/
theorem numericEquiv_dot (t : List Char) :
    is_numeric_literal ('.' :: t) = amendedNumeric ('.' :: t) := by
  have hdotp : isDigitDot '.' = true := by decide
  have hdotsp : isPySpace '.' = false := by decide
  have hdotd : isPyDigit '.' = false := by decide
  have h1 : matchNonNumHead ('.' :: t) = false := by
    simp [matchNonNumHead]
  have h2 : matchDotOnly ('.' :: t) = t.all isPySpace := by
    simp [matchDotOnly, List.dropWhile_cons, hdotsp, dropWhile_isEmpty_eq_all]
  by_cases hts : t.all isPySpace = true
  · have hLHS : is_numeric_literal ('.' :: t) = false := by
      simp [is_numeric_literal, h1, h2, hts]
    have hcore : ('.' :: t).takeWhile isDigitDot = ['.'] := by
      simp [List.takeWhile_cons, hdotp, all_space_takeWhile_digitDot t hts]
    rw [hLHS]
    simp [amendedNumeric, hcore]
  · have hLHS : is_numeric_literal ('.' :: t) = matchNumBody ('.' :: t) := by
      simp [is_numeric_literal, h1, h2, hts]
    have htB : t.takeWhile isPyDigit ++ t.dropWhile isPyDigit = t :=
      List.takeWhile_append_dropWhile isPyDigit t
    have hBall : (t.takeWhile isPyDigit).all isPyDigit := all_takeWhile_self _ t
    have hBp : (t.takeWhile isPyDigit).all isDigitDot :=
      all_mono (fun _ h => digit_isDigitDot h) _ hBall
    have hB0 : dotCount (t.takeWhile isPyDigit) = 0 := dotCount_digits _ hBall
    have hcore : ('.' :: t).takeWhile isDigitDot =
        '.' :: (t.takeWhile isPyDigit ++ (t.dropWhile isPyDigit).takeWhile isDigitDot) := by
      conv_lhs => rw [List.takeWhile_cons, if_pos hdotp, ← htB]
      rw [takeWhile_all_append _ _ _ hBp]
    have hrest : ('.' :: t).dropWhile isDigitDot =
        (t.dropWhile isPyDigit).dropWhile isDigitDot := by
      conv_lhs => rw [List.dropWhile_cons, if_pos hdotp, ← htB]
      rw [dropWhile_all_append _ _ _ hBp]
    have hcs1 : ('.' :: t).dropWhile isPySpace = '.' :: t := by
      simp [List.dropWhile_cons, hdotsp]
    have hcs2 : ('.' :: t).dropWhile isPyDigit = '.' :: t := by
      simp [List.dropWhile_cons, hdotd]
    rw [hLHS]
    simp only [matchNumBody, hcs1, hcs2, reduceIte]
    rcases hr3 : t.dropWhile isPyDigit with _ | ⟨y, r4⟩
    · rw [hr3] at hcore hrest htB
      have htBeq : t.takeWhile isPyDigit = t := by simpa using htB
      have htne : t ≠ [] := by
        intro h0
        exact hts (by simp [h0])
      have hne : ('.' :: (t.takeWhile isPyDigit ++
          ([] : List Char).takeWhile isDigitDot)) ≠ ['.'] := by
        intro hbad
        apply htne
        have hh : t.takeWhile isPyDigit ++ ([] : List Char).takeWhile isDigitDot
            = [] := by
          have := congrArg List.tail hbad
          simpa using this
        rw [← htBeq]
        simpa using hh
      simp only [amendedNumeric, hcore, hrest]
      rw [decide_eq_true hne]
      simp [dotCount, dotCount_append, hB0]
    · have hy : isPyDigit y = false := dropWhile_head_false _ t y r4 hr3
      rw [hr3] at hcore hrest htB
      by_cases hyd : y = '.'
      · subst hyd
        have hty : ('.' :: r4).takeWhile isDigitDot =
            '.' :: r4.takeWhile isDigitDot := by
          simp [List.takeWhile_cons, hdotp]
        rw [hty] at hcore
        simp only [amendedNumeric, hcore, hrest]
        have hLfalse : ((('.' :: r4) : List Char).dropWhile isPySpace).isEmpty
            = false := by
          simp [List.dropWhile_cons, hdotsp]
        rw [hLfalse]
        have hcount : ¬(dotCount ('.' :: (t.takeWhile isPyDigit ++
            '.' :: r4.takeWhile isDigitDot)) ≤ 1) := by
          simp [dotCount, dotCount_append, hB0]
        simp [hcount]
      · have hyp : isDigitDot y = false := by
          simp [isDigitDot, hy, hyd]
        have hty : (y :: r4).takeWhile isDigitDot = [] := by
          simp [List.takeWhile_cons, hyp]
        rw [hty] at hcore
        have hdy : (y :: r4).dropWhile isDigitDot = y :: r4 := by
          simp [List.dropWhile_cons, hyp]
        rw [hdy] at hrest
        simp only [amendedNumeric, hcore, hrest]
        rw [dropWhile_isEmpty_eq_all]
        by_cases hB : t.takeWhile isPyDigit = []
        · have hteq : t = y :: r4 := by
            rw [← htB, hB]
            simp
          have hLfalse : (y :: r4).all isPySpace = false := by
            rw [← hteq]
            cases hbv : t.all isPySpace with
            | false => rfl
            | true => exact absurd hbv hts
          rw [hLfalse]
          simp [hB]
        · have hne : ('.' :: (t.takeWhile isPyDigit ++ ([] : List Char))) ≠ ['.'] := by
            intro hbad
            apply hB
            have hh := congrArg List.tail hbad
            simpa using hh
          rw [decide_eq_true hne]
          simp [dotCount, dotCount_append, hB0]

/-- C9, counterexample: `"2 "` (a digit followed by a space) satisfies
`is_numeric_literal` — the regex `^\s*\d*(\.)?\d*\s*$` allows trailing
whitespace — but contains a character that is neither a digit nor `.`,
so the claimed characterisation rejects it. -/
theorem C9_counterexample :
    is_numeric_literal "2 ".toList = true ∧ claimedNumeric "2 ".toList = false := by
  decide

/-- C9, amended: for every string `s`, `is_numeric_literal s` is true iff
`s` consists of a non-empty core of digits containing at most one `.`,
followed by optional trailing whitespace, where the core is not the bare
`.` alone. -/
theorem C9_theorem (s : List Char) : is_numeric_literal s = amendedNumeric s := by
  rcases s with _ | ⟨c, t⟩
  · rfl
  · by_cases hc : isPyDigit c = true
    · exact numericEquiv_digit c t hc
    · by_cases hcd : c = '.'
      · subst hcd
        exact numericEquiv_dot t
      · have hcf : isPyDigit c = false := by
          cases hv : isPyDigit c with
          | true => exact absurd hv hc
          | false => rfl
        have hpc : isDigitDot c = false := by
          simp [isDigitDot, hcf, hcd]
        have h1 : matchNonNumHead (c :: t) = true := by
          simp [matchNonNumHead, hcf, hcd]
        have hLHS : is_numeric_literal (c :: t) = false := by
          simp [is_numeric_literal, h1]
        have hcore : (c :: t).takeWhile isDigitDot = [] := by
          simp [List.takeWhile_cons, hpc]
        rw [hLHS]
        simp [amendedNumeric, hcore]

end Scheme
